import Mathlib

/-!
Verification development for the ebook reader playback and speech
synchronization core.

The definitions below are shallow embeddings of the Rust source:
durations are modelled as natural numbers of time units, Rust Result as
Except, and the playback worker's command loop as a fold over the list of
commands it receives.  Fallible backend calls are modelled by a backend
record of pure functions returning Except, matching the AudioBackend
trait interface.  Floating point values, where they matter (the sample
converter and the rate pipeline), are modelled by an inductive type with
explicit NaN and infinity constructors over exact rationals, with the
Rust clamp, round and saturating-cast semantics spelled out per case.
-/

/-- A chapter as consumed by the playback controller (src/crates/ebook-core).
The controller treats it opaquely (it only clones and forwards it), so the
identifying fields suffice for the embedding. -/
structure Chapter where
  id : String
  title : String
deriving DecidableEq, Repr

/-- The interior of PlaybackState (playback.rs, StateInner): current chapter,
playing flag and position.  Duration is modelled as a natural number. -/
structure StateInner where
  current_chapter : Option Chapter
  is_playing : Bool
  position : Nat
deriving DecidableEq, Repr

/-- Default state: no chapter, not playing, position zero (StateInner::default). -/
def StateInner.default : StateInner :=
  { current_chapter := none, is_playing := false, position := 0 }

/-- PlaybackState::set_chapter: store the chapter; when it is cleared the
playing flag and position are reset (playback.rs lines 43-50). -/
def set_chapter (s : StateInner) (chapter : Option Chapter) : StateInner :=
  let s1 := { s with current_chapter := chapter }
  if s1.current_chapter.isNone then
    { s1 with is_playing := false, position := 0 }
  else
    s1

/-- PlaybackState::set_playing (playback.rs lines 52-54). -/
def set_playing (s : StateInner) (playing : Bool) : StateInner :=
  { s with is_playing := playing }

/-- PlaybackState::set_position (playback.rs lines 56-58). -/
def set_position (s : StateInner) (p : Nat) : StateInner :=
  { s with position := p }

/-- PlaybackCommand (playback.rs lines 68-75). -/
inductive PlaybackCommand where
  | loadAndPlay (chapter : Chapter)
  | pause
  | resume
  | stop
  | seek (position : Nat)
deriving DecidableEq, Repr

/-- PlaybackEvent (playback.rs lines 77-85). -/
inductive PlaybackEvent where
  | chapterStarted (chapter : Chapter)
  | chapterComplete (chapter : Chapter)
  | chapterFailed (chapter : Chapter) (error : String)
deriving DecidableEq, Repr

/-- The AudioBackend trait (playback.rs lines 87-95): every call returns a
Result.  A backend value fixes the outcome of each call, which is all the
worker observes of it. -/
structure AudioBackend where
  load : Chapter → Except String Unit
  play : Except String Unit
  pause : Except String Unit
  stop : Except String Unit
  seek : Nat → Except String Unit
  position : Except String Nat

/-- handle_command (playback.rs lines 146-185).  Returns the Result the
function produces, the events sent on the event channel during the call (in
order) and the state after the call.  The question-mark operator on a failed
backend call returns early: no later state update runs and no event is sent.
After a successful command the backend position is queried and, when that
query succeeds, recorded in the state (lines 181-183). -/
def handle_command (command : PlaybackCommand) (backend : AudioBackend)
    (state : StateInner) : Except String Unit × List PlaybackEvent × StateInner :=
  let step : Except String Unit × List PlaybackEvent × StateInner :=
    match command with
    | .loadAndPlay chapter =>
      match backend.load chapter with
      | .error e => (.error e, [], state)
      | .ok _ =>
        match backend.play with
        | .error e => (.error e, [], state)
        | .ok _ =>
          let s1 := set_chapter state (some chapter)
          let s2 := set_playing s1 true
          (.ok (), [PlaybackEvent.chapterStarted chapter], s2)
    | .pause =>
      match backend.pause with
      | .error e => (.error e, [], state)
      | .ok _ => (.ok (), [], set_playing state false)
    | .resume =>
      match backend.play with
      | .error e => (.error e, [], state)
      | .ok _ => (.ok (), [], set_playing state true)
    | .stop =>
      match backend.stop with
      | .error e => (.error e, [], state)
      | .ok _ =>
        let events :=
          match state.current_chapter with
          | some chapter => [PlaybackEvent.chapterComplete chapter]
          | none => []
        (.ok (), events, set_chapter state none)
    | .seek position =>
      match backend.seek position with
      | .error e => (.error e, [], state)
      | .ok _ => (.ok (), [], set_position state position)
  match step with
  | (.error e, evts, s) => (.error e, evts, s)
  | (.ok _, evts, s) =>
    match backend.position with
    | .ok p => (.ok (), evts, set_position s p)
    | .error _ => (.ok (), evts, s)

/-- The worker spawned by PlaybackController::new (playback.rs lines 111-118):
it receives commands in order and calls handle_command on each; an Err result
is only logged, after which the loop continues with the next command.
Returns all events sent, in order, and the final state. -/
def worker_loop (backend : AudioBackend) (commands : List PlaybackCommand)
    (state : StateInner) : List PlaybackEvent × StateInner :=
  match commands with
  | [] => ([], state)
  | cmd :: rest =>
    let r := handle_command cmd backend state
    let next := worker_loop backend rest r.2.2
    (r.2.1 ++ next.1, next.2)

/-- Concrete chapters used for concrete evaluations. -/
def chapA : Chapter := ⟨"a", "Chapter A"⟩

def chapB : Chapter := ⟨"b", "Chapter B"⟩

/-- A backend whose load call fails on chapter chapA and succeeds elsewhere;
every other call succeeds. -/
def c1Backend : AudioBackend :=
  { load := fun c => if c.id = "a" then .error ("load failure") else .ok ()
    play := .ok ()
    pause := .ok ()
    stop := .ok ()
    seek := fun _ => .ok ()
    position := .ok 0 }

/-- C1: on a LoadAndPlay whose backend load fails, the worker emits NO event
at all — in particular no chapterFailed event carrying the unit and the
error — it merely logs and continues, as witnessed by the following command
being served normally.  The event list for a failing LoadAndPlay of chapA
followed by a succeeding LoadAndPlay of chapB contains only the started
event of chapB, where the claim (and spec section 4.1 / 7) requires a
chapterFailed event for chapA before it. -/
theorem c1_load_error_emits_no_failed_event :
    worker_loop c1Backend
      [PlaybackCommand.loadAndPlay chapA, PlaybackCommand.loadAndPlay chapB]
      StateInner.default
    = ([PlaybackEvent.chapterStarted chapB],
       { current_chapter := some chapB, is_playing := true, position := 0 }) := by
  rfl

/-- C2: handling LoadAndPlay of a chapter and then Stop, with every backend
call succeeding, emits exactly one started event then exactly one complete
event for that chapter, and the final state has no current chapter and is
not playing. -/
theorem c2_load_play_stop_event_sequence (backend : AudioBackend) (a : Chapter)
    (p : Nat)
    (hload : backend.load a = .ok ()) (hplay : backend.play = .ok ())
    (hstop : backend.stop = .ok ()) (hpos : backend.position = .ok p) :
    worker_loop backend [PlaybackCommand.loadAndPlay a, PlaybackCommand.stop]
      StateInner.default
    = ([PlaybackEvent.chapterStarted a, PlaybackEvent.chapterComplete a],
       { current_chapter := none, is_playing := false, position := p }) := by
  simp [worker_loop, handle_command, hload, hplay, hstop, hpos,
    set_chapter, set_playing, set_position, StateInner.default]

/-- Witness for C2 at a concrete backend and chapter. -/
theorem c2_witness :
    worker_loop
      { load := fun _ => .ok (), play := .ok (), pause := .ok (),
        stop := .ok (), seek := fun _ => .ok (), position := .ok 7 }
      [PlaybackCommand.loadAndPlay chapA, PlaybackCommand.stop]
      StateInner.default
    = ([PlaybackEvent.chapterStarted chapA, PlaybackEvent.chapterComplete chapA],
       { current_chapter := none, is_playing := false, position := 7 }) :=
  c2_load_play_stop_event_sequence _ chapA 7 rfl rfl rfl rfl

/-- C10: Pause, Resume and Seek never change the current chapter of the
playback state, whether the backend call succeeds or fails; only LoadAndPlay
and Stop ever write that field. -/
theorem c10_pause_resume_seek_preserve_chapter (backend : AudioBackend)
    (s : StateInner) (cmd : PlaybackCommand)
    (h : cmd = PlaybackCommand.pause ∨ cmd = PlaybackCommand.resume ∨
         ∃ t, cmd = PlaybackCommand.seek t) :
    (handle_command cmd backend s).2.2.current_chapter = s.current_chapter := by
  rcases h with h | h | ⟨t, h⟩ <;> subst h
  · cases hb : backend.pause <;>
      cases hp : backend.position <;>
        simp [handle_command, hb, hp, set_playing, set_position]
  · cases hb : backend.play <;>
      cases hp : backend.position <;>
        simp [handle_command, hb, hp, set_playing, set_position]
  · cases hb : backend.seek t <;>
      cases hp : backend.position <;>
        simp [handle_command, hb, hp, set_position]

/-- Witness for C10: a concrete pause leaves the chapter untouched. -/
theorem c10_witness :
    (handle_command PlaybackCommand.pause c1Backend
      { current_chapter := some chapA, is_playing := true, position := 3
      }).2.2.current_chapter
    = some chapA :=
  c10_pause_resume_seek_preserve_chapter c1Backend
    { current_chapter := some chapA, is_playing := true, position := 3 }
    PlaybackCommand.pause (Or.inl rfl)

/-- An AudioFrame (rust_core engine/mod.rs lines 13-18): a slice of PCM
samples (i16 values modelled as integers), the sample rate, and the
estimated source-text offset of the first sample. -/
structure AudioFrame where
  samples : List Int
  sample_rate : Nat
  associated_text_idx : Nat
deriving DecidableEq, Repr

/-- The while loop of chunk_audio_samples (engine/mod.rs lines 179-194).
The Rust loop advances offset by chunk_samples per iteration; it only
terminates when chunk_samples is positive, which holds at the single call
site, so positivity is part of the loop guard here.  The f64 expression
(offset / total) * text_len cast to usize is floor division in exact
arithmetic, embedded as natural division offset * text_len / total; the
dead total == 0 guard of the source is kept. -/
def chunk_loop (samples : List Int) (sample_rate chunk_samples total text_len
    offset : Nat) : List AudioFrame :=
  if h : offset < total ∧ 0 < chunk_samples then
    let e := min (offset + chunk_samples) total
    let chunk := (samples.drop offset).take (e - offset)
    let start_idx := if total = 0 then 0 else offset * text_len / total
    { samples := chunk, sample_rate := sample_rate,
      associated_text_idx := start_idx }
      :: chunk_loop samples sample_rate chunk_samples total text_len e
  else
    []
termination_by total - offset
decreasing_by omega

/-- chunk_audio_samples (engine/mod.rs lines 161-197): an empty input yields
one empty frame at offset 0; otherwise the input is cut into frames of
about 200 milliseconds (at least one sample) with interpolated text
offsets. -/
def chunk_audio_samples (samples : List Int) (sample_rate text_len : Nat) :
    List AudioFrame :=
  if samples.isEmpty then
    [{ samples := samples, sample_rate := sample_rate,
       associated_text_idx := 0 }]
  else
    let chunk_samples := max (sample_rate * 200 / 1000) 1
    chunk_loop samples sample_rate chunk_samples samples.length text_len 0

theorem chunk_loop_flatten (samples : List Int) (sr cs tl : Nat) (hcs : 0 < cs) :
    ∀ offset, offset ≤ samples.length →
      ((chunk_loop samples sr cs samples.length tl offset).map
        AudioFrame.samples).flatten = samples.drop offset := by
  intro offset
  induction offset using chunk_loop.induct samples sr cs samples.length tl with
  | case1 x hx e ih =>
    intro hle
    rw [chunk_loop, dif_pos hx]
    rw [List.map_cons, List.flatten_cons]
    rw [ih (by omega)]
    have hdrop : samples.drop (min (x + cs) samples.length)
        = (samples.drop x).drop (min (x + cs) samples.length - x) := by
      rw [List.drop_drop]
      congr 1
      omega
    rw [hdrop, List.take_append_drop]
  | case2 x hx =>
    intro hle
    rw [chunk_loop, dif_neg hx]
    have : x = samples.length := by omega
    simp [this]

theorem chunk_loop_mem_bounds (samples : List Int) (sr cs total tl : Nat) :
    ∀ offset, ∀ f ∈ chunk_loop samples sr cs total tl offset,
      offset * tl / total ≤ f.associated_text_idx ∧
        f.associated_text_idx ≤ tl := by
  intro offset
  induction offset using chunk_loop.induct samples sr cs total tl with
  | case1 x hx e ih =>
    intro f hf
    rw [chunk_loop, dif_pos hx] at hf
    rcases List.mem_cons.mp hf with hf | hf
    · subst hf
      have htot : total ≠ 0 := by omega
      simp only [htot, if_false]
      constructor
      · exact le_refl _
      · calc x * tl / total ≤ total * tl / total :=
              Nat.div_le_div_right (Nat.mul_le_mul_right tl (le_of_lt hx.1))
          _ = tl := Nat.mul_div_cancel_left tl (by omega)
    · have hb := ih f hf
      refine ⟨le_trans ?_ hb.1, hb.2⟩
      exact Nat.div_le_div_right (Nat.mul_le_mul_right tl (by omega))
  | case2 x hx =>
    intro f hf
    rw [chunk_loop, dif_neg hx] at hf
    exact absurd hf (List.not_mem_nil f)

theorem chunk_loop_pairwise (samples : List Int) (sr cs total tl : Nat) :
    ∀ offset, List.Pairwise (· ≤ ·)
      ((chunk_loop samples sr cs total tl offset).map
        AudioFrame.associated_text_idx) := by
  intro offset
  induction offset using chunk_loop.induct samples sr cs total tl with
  | case1 x hx e ih =>
    rw [chunk_loop, dif_pos hx]
    rw [List.map_cons, List.pairwise_cons]
    refine ⟨?_, ih⟩
    intro b hb
    rcases List.mem_map.mp hb with ⟨f, hf, rfl⟩
    have hlow := (chunk_loop_mem_bounds samples sr cs total tl _ f hf).1
    have htot : total ≠ 0 := by omega
    simp only [htot, if_false]
    refine le_trans ?_ hlow
    exact Nat.div_le_div_right (Nat.mul_le_mul_right tl (by omega))
  | case2 x hx =>
    rw [chunk_loop, dif_neg hx]
    simp

theorem chunk_loop_idx (samples : List Int) (sr cs tl : Nat) :
    ∀ offset, offset ≤ samples.length →
      ∀ i f, (chunk_loop samples sr cs samples.length tl offset)[i]? = some f →
        f.associated_text_idx
          = (offset + (((chunk_loop samples sr cs samples.length tl
              offset).take i).map (fun g => g.samples.length)).sum)
            * tl / samples.length := by
  intro offset
  induction offset using chunk_loop.induct samples sr cs samples.length tl with
  | case1 x hx e ih =>
    intro hle i f hf
    rw [chunk_loop, dif_pos hx] at hf ⊢
    match i with
    | 0 =>
      rw [List.getElem?_cons_zero] at hf
      cases hf
      have htot : samples.length ≠ 0 := by omega
      simp [htot]
    | Nat.succ i =>
      rw [List.getElem?_cons_succ] at hf
      have hee : min (x + cs) samples.length ≤ samples.length := by omega
      have heq := ih hee i f hf
      have he : e = min (x + cs) samples.length := rfl
      rw [he] at heq
      rw [heq]
      have hlen : ((samples.drop x).take (min (x + cs) samples.length - x)).length
          = min (x + cs) samples.length - x := by
        rw [List.length_take, List.length_drop]
        omega
      rw [List.take_succ_cons, List.map_cons, List.sum_cons, hlen]
      congr 2
      omega
  | case2 x hx =>
    intro hle i f hf
    rw [chunk_loop, dif_neg hx] at hf
    simp at hf

/-- C3: for every sample vector, sample rate and text length, the chunker
returns a non-empty frame list whose sample vectors concatenate to the
input exactly, with text offsets non-decreasing and bounded by the text
length; the empty input yields exactly one empty frame at offset 0. -/
theorem c3_chunk_partition (samples : List Int) (sample_rate text_len : Nat) :
    chunk_audio_samples samples sample_rate text_len ≠ [] ∧
    ((chunk_audio_samples samples sample_rate text_len).map
      AudioFrame.samples).flatten = samples ∧
    List.Pairwise (· ≤ ·)
      ((chunk_audio_samples samples sample_rate text_len).map
        AudioFrame.associated_text_idx) ∧
    (∀ f ∈ chunk_audio_samples samples sample_rate text_len,
      f.associated_text_idx ≤ text_len) ∧
    (samples = [] → chunk_audio_samples samples sample_rate text_len
      = [{ samples := [], sample_rate := sample_rate,
           associated_text_idx := 0 }]) := by
  by_cases hemp : samples = []
  · subst hemp
    refine ⟨by simp [chunk_audio_samples], ?_, ?_, ?_, ?_⟩ <;>
      simp [chunk_audio_samples]
  · have hlen : 0 < samples.length := List.length_pos.mpr hemp
    have hcs : 0 < max (sample_rate * 200 / 1000) 1 := by omega
    have hne : ¬samples.isEmpty := by
      simp [List.isEmpty_iff, hemp]
    constructor
    · rw [chunk_audio_samples, if_neg hne, chunk_loop,
        dif_pos (And.intro hlen hcs)]
      exact List.cons_ne_nil _ _
    constructor
    · rw [chunk_audio_samples, if_neg hne]
      have := chunk_loop_flatten samples sample_rate
        (max (sample_rate * 200 / 1000) 1) text_len hcs 0 (Nat.zero_le _)
      simpa using this
    constructor
    · rw [chunk_audio_samples, if_neg hne]
      exact chunk_loop_pairwise samples sample_rate _ samples.length text_len 0
    constructor
    · rw [chunk_audio_samples, if_neg hne]
      intro f hf
      exact (chunk_loop_mem_bounds samples sample_rate _ samples.length
        text_len 0 f hf).2
    · intro h
      exact absurd h hemp

/-- Witness for C3: the empty input yields the single empty frame, and a
concrete non-empty input is partitioned exactly. -/
theorem c3_witness :
    chunk_audio_samples ([] : List Int) 16000 10
      = [{ samples := [], sample_rate := 16000, associated_text_idx := 0 }] ∧
    ((chunk_audio_samples [1, 2, 3] 1 5).map AudioFrame.samples).flatten
      = [1, 2, 3] :=
  ⟨(c3_chunk_partition [] 16000 10).2.2.2.2 rfl,
   (c3_chunk_partition [1, 2, 3] 1 5).2.1⟩

/-- The text-offset formula exactly as the claim words it: round of the
exact ratio sample_offset / total_samples scaled by the text length.
Stated over exact rationals with the Mathlib round function (round half
up, which agrees with round half away from zero on the non-negative
arguments occurring here). -/
def claimRoundOffset (sample_offset total_samples text_len : Nat) : Int :=
  round ((sample_offset : ℚ) / (total_samples : ℚ) * (text_len : ℚ))

/-- C4 counterexample: for the three one-sample frames produced from a
three-sample input at sample rate 1 with text length 2, the frame whose
first sample has index 1 carries offset 0 (the code truncates 2/3 to 0),
while the formula of the claim rounds 2/3 to 1. -/
theorem c4_round_counterexample :
    (chunk_audio_samples [0, 0, 0] 1 2).map AudioFrame.associated_text_idx
      = [0, 0, 1]
    ∧ claimRoundOffset 1 3 2 = 1
    ∧ (0 : Int) ≠ 1 := by
  refine ⟨by simp [chunk_audio_samples, chunk_loop], ?_, by decide⟩
  norm_num [claimRoundOffset, round_eq]

/-- C4 amended: each frame's associated text offset is the truncation
(floor), not the rounding, of sample_offset / total_samples scaled by the
text length, where sample_offset is the index of the frame's first sample,
equal to the total sample count of the preceding frames. -/
theorem c4_offset_is_floor (samples : List Int) (sample_rate text_len : Nat)
    (h : samples ≠ []) (i : Nat)
    (hi : i < (chunk_audio_samples samples sample_rate text_len).length) :
    ((chunk_audio_samples samples sample_rate text_len).get
        ⟨i, hi⟩).associated_text_idx
      = (((chunk_audio_samples samples sample_rate text_len).take i).map
          (fun f => f.samples.length)).sum * text_len / samples.length := by
  have hne : ¬samples.isEmpty := by simp [List.isEmpty_iff, h]
  have heq : chunk_audio_samples samples sample_rate text_len
      = chunk_loop samples sample_rate (max (sample_rate * 200 / 1000) 1)
          samples.length text_len 0 := by
    rw [chunk_audio_samples, if_neg hne]
  have hv : (chunk_audio_samples samples sample_rate text_len)[i]?
      = some ((chunk_audio_samples samples sample_rate text_len).get ⟨i, hi⟩) := by
    rw [List.getElem?_eq_getElem hi]
    rfl
  generalize hval : (chunk_audio_samples samples sample_rate text_len).get
    ⟨i, hi⟩ = v at hv ⊢
  rw [heq] at hv
  have hidx := chunk_loop_idx samples sample_rate
    (max (sample_rate * 200 / 1000) 1) text_len 0 (Nat.zero_le _) i v hv
  rw [hidx, heq]
  simp

/-- Witness for C4 amended at the counterexample input: the frame at index 1
carries offset 1 * 2 / 3 = 0. -/
theorem c4_offset_is_floor_witness :
    (([0, 0, 0] : List Int) ≠ []) ∧
    ((chunk_audio_samples [0, 0, 0] 1 2).get
        ⟨1, by simp [chunk_audio_samples, chunk_loop]⟩).associated_text_idx
      = (((chunk_audio_samples [0, 0, 0] 1 2).take 1).map
          (fun f => f.samples.length)).sum * 2 / 3 := by
  refine ⟨by decide, ?_⟩
  have := c4_offset_is_floor [0, 0, 0] 1 2 (by decide) 1
    (by simp [chunk_audio_samples, chunk_loop])
  simpa using this

/-- A 32-bit float value as far as the embedded code observes it: NaN, the
two infinities, or a finite value modelled as an exact rational.  Finite
arithmetic is idealized to exact rational arithmetic; the NaN, infinity,
clamp, round and saturating-cast cases follow the Rust semantics of the
corresponding operations case by case. -/
inductive F32 where
  | nan
  | pinf
  | ninf
  | fin (q : ℚ)
deriving DecidableEq, Repr

/-- Rust f32 clamp with finite bounds lo ≤ hi: NaN propagates, an infinity
is pulled to the nearer bound, a finite value is pinned into the interval. -/
def rustClamp (x : F32) (lo hi : ℚ) : F32 :=
  match x with
  | .nan => .nan
  | .pinf => .fin hi
  | .ninf => .fin lo
  | .fin q => .fin (if q < lo then lo else if hi < q then hi else q)

/-- Rust f32 multiplication by a positive finite constant. -/
def rustMulPos (x : F32) (c : ℚ) : F32 :=
  match x with
  | .nan => .nan
  | .pinf => .pinf
  | .ninf => .ninf
  | .fin q => .fin (q * c)

/-- Rust f32 round: round half away from zero; NaN and infinities pass
through. -/
def rustRound (x : F32) : F32 :=
  match x with
  | .nan => .nan
  | .pinf => .pinf
  | .ninf => .ninf
  | .fin q => .fin (if 0 ≤ q then (⌊q + 1 / 2⌋ : ℚ) else (-⌊-q + 1 / 2⌋ : ℚ))

/-- The Rust saturating float-to-i16 cast (the as operator): NaN casts to
0, out-of-range values saturate at the type bounds, finite in-range values
truncate toward zero. -/
def rustCastI16 (x : F32) : Int :=
  match x with
  | .nan => 0
  | .pinf => 32767
  | .ninf => -32768
  | .fin q =>
    if q < -32768 then -32768
    else if 32767 < q then 32767
    else if 0 ≤ q then ⌊q⌋ else -⌊-q⌋

/-- float_to_pcm_i16 (rust_core audio/buffer_generator.rs lines 1-9): clamp
each sample to the unit interval, scale by the i16 maximum 32767, cast. -/
def float_to_pcm_i16 (samples : List F32) : List Int :=
  samples.map (fun sample => rustCastI16 (rustMulPos (rustClamp sample (-1) 1) 32767))

theorem rustCastI16_range (x : F32) :
    -32768 ≤ rustCastI16 x ∧ rustCastI16 x ≤ 32767 := by
  cases x with
  | nan => constructor <;> norm_num [rustCastI16]
  | pinf => constructor <;> norm_num [rustCastI16]
  | ninf => constructor <;> norm_num [rustCastI16]
  | fin q =>
    simp only [rustCastI16]
    split_ifs with h1 h2 h3
    · constructor <;> norm_num
    · constructor <;> norm_num
    · constructor
      · have h0 : (0 : Int) ≤ ⌊q⌋ := Int.le_floor.mpr (by exact_mod_cast h3)
        omega
      · have hle : ⌊q⌋ ≤ ⌊(32767 : ℚ)⌋ := Int.floor_le_floor (le_of_not_lt h2)
        have : ⌊(32767 : ℚ)⌋ = 32767 := by norm_num
        omega
    · have hq : -32768 ≤ q := le_of_not_lt h1
      have h0 : (0 : Int) ≤ ⌊-q⌋ := Int.le_floor.mpr (by push_cast; linarith [lt_of_not_le h3])
      have hle : ⌊-q⌋ ≤ ⌊(32768 : ℚ)⌋ := Int.floor_le_floor (by linarith)
      have h2 : ⌊(32768 : ℚ)⌋ = 32768 := by norm_num
      omega


/-- C5: the sample converter preserves length, lands every output in the
signed 16-bit range by clamping before scaling, and maps the out-of-range
inputs 1.5 and -1.5 to the maximum value and its negation; the total
function never wraps nor panics. -/
theorem c5_float_to_pcm_spec (samples : List F32) :
    (float_to_pcm_i16 samples).length = samples.length ∧
    (∀ v ∈ float_to_pcm_i16 samples, -32768 ≤ v ∧ v ≤ 32767) ∧
    float_to_pcm_i16 [F32.fin (3 / 2)] = [32767] ∧
    float_to_pcm_i16 [F32.fin (-(3 / 2))] = [-32767] := by
  refine ⟨by simp [float_to_pcm_i16], ?_,
    by norm_num [float_to_pcm_i16, rustClamp, rustMulPos, rustCastI16],
    by norm_num [float_to_pcm_i16, rustClamp, rustMulPos, rustCastI16]⟩
  intro v hv
  rcases List.mem_map.mp hv with ⟨s, _, rfl⟩
  exact rustCastI16_range _

/-- Witness for C5 on a concrete input vector containing a NaN and an
infinity: length preserved and a concrete element in range. -/
theorem c5_witness :
    (float_to_pcm_i16 [F32.nan, F32.pinf]).length = 2 ∧
    (-32768 ≤ (32767 : Int) ∧ (32767 : Int) ≤ 32767) := by
  refine ⟨by simpa using (c5_float_to_pcm_spec [F32.nan, F32.pinf]).1, ?_⟩
  exact (c5_float_to_pcm_spec [F32.nan, F32.pinf]).2.1 32767
    (by norm_num [float_to_pcm_i16, rustClamp, rustMulPos, rustCastI16])

/-- A sync point (rust_core audio/sync_map.rs lines 3-7); the timestamp is
a natural number of time units. -/
structure SyncPoint where
  text_index : Nat
  timestamp : Nat
deriving DecidableEq, Repr

/-- SyncMap (sync_map.rs lines 9-12): an append-only list of points. -/
structure SyncMap where
  points : List SyncPoint
deriving DecidableEq, Repr

/-- SyncMap::push_point (sync_map.rs lines 15-20). -/
def push_point (m : SyncMap) (text_index timestamp : Nat) : SyncMap :=
  ⟨m.points ++ [⟨text_index, timestamp⟩]⟩

/-- SyncMap::resolve_index (sync_map.rs lines 22-28): scan the points from
the most recent backward and return the text index of the first one whose
timestamp is at or before the query. -/
def resolve_index (m : SyncMap) (timestamp : Nat) : Option Nat :=
  (m.points.reverse.find? (fun point => point.timestamp ≤ timestamp)).map
    SyncPoint.text_index

/-- A sync map built by a sequence of push_point calls starting from the
default empty map, one call per (text_index, timestamp) pair in order. -/
def buildSyncMap (pairs : List (Nat × Nat)) : SyncMap :=
  pairs.foldl (fun m pr => push_point m pr.1 pr.2) ⟨[]⟩

theorem buildSyncMap_points_aux (pairs : List (Nat × Nat)) :
    ∀ m : SyncMap,
      (pairs.foldl (fun m pr => push_point m pr.1 pr.2) m).points
        = m.points ++ pairs.map (fun pr => (⟨pr.1, pr.2⟩ : SyncPoint)) := by
  induction pairs with
  | nil => intro m; simp
  | cons hd tl ih =>
    intro m
    simp only [List.foldl_cons, List.map_cons]
    rw [ih]
    simp [push_point]

theorem buildSyncMap_points (pairs : List (Nat × Nat)) :
    (buildSyncMap pairs).points
      = pairs.map (fun pr => (⟨pr.1, pr.2⟩ : SyncPoint)) := by
  rw [buildSyncMap, buildSyncMap_points_aux]
  rfl

/-- C6: on a map built by pushes with non-decreasing timestamps, resolving
a timestamp T yields the text index of the most recently pushed point at
or before T (the last pushed point whose timestamp is at most T, every
later push being strictly after T), and yields none on the empty map or
when T precedes the first recorded point. -/
theorem c6_resolve_most_recent (pairs : List (Nat × Nat)) (T : Nat)
    (hmono : List.Chain' (fun p q => p.2 ≤ q.2) pairs) :
    (pairs = [] → resolve_index (buildSyncMap pairs) T = none) ∧
    (∀ p0 rest, pairs = p0 :: rest → T < p0.2 →
      resolve_index (buildSyncMap pairs) T = none) ∧
    (∀ l1 p l2, pairs = l1 ++ p :: l2 → p.2 ≤ T → (∀ q ∈ l2, T < q.2) →
      resolve_index (buildSyncMap pairs) T = some p.1) := by
  refine ⟨?_, ?_, ?_⟩
  · intro h
    subst h
    rfl
  · intro p0 rest h hT
    subst h
    haveI : IsTrans (Nat × Nat) (fun p q => p.2 ≤ q.2) :=
      ⟨fun _ _ _ hab hbc => le_trans hab hbc⟩
    have hpw : List.Pairwise (fun p q : Nat × Nat => p.2 ≤ q.2) (p0 :: rest) :=
      (List.chain'_iff_pairwise.mp hmono)
    have hall : ∀ q ∈ p0 :: rest, T < q.2 := by
      intro q hq
      rcases List.mem_cons.mp hq with rfl | hq
      · exact hT
      · exact lt_of_lt_of_le hT (List.rel_of_pairwise_cons hpw hq)
    rw [resolve_index, buildSyncMap_points]
    rw [List.find?_eq_none.mpr]
    · rfl
    · intro q hq
      rcases List.mem_reverse.mp hq |> List.mem_map.mp with ⟨pr, hpr, rfl⟩
      simpa using hall pr hpr
  · intro l1 p l2 h hp hl2
    subst h
    rw [resolve_index, buildSyncMap_points]
    rw [List.map_append, List.map_cons, List.reverse_append, List.reverse_cons]
    rw [List.append_assoc, List.find?_append, List.find?_append]
    have h2 : (List.map (fun pr => (⟨pr.1, pr.2⟩ : SyncPoint)) l2).reverse.find?
        (fun point => point.timestamp ≤ T) = none := by
      apply List.find?_eq_none.mpr
      intro q hq
      rcases List.mem_reverse.mp hq |> List.mem_map.mp with ⟨pr, hpr, rfl⟩
      simpa using hl2 pr hpr
    rw [h2]
    simp [hp]

/-- Witness for C6 on the scenario of the spec: pushes at timestamps 0, 100
and 300 with indices 0, 5, 10; resolving 150 yields 5, resolving before
any point yields none, and the empty map resolves to none. -/
theorem c6_witness :
    resolve_index (buildSyncMap [(0, 0), (5, 100), (10, 300)]) 150 = some 5 ∧
    resolve_index (buildSyncMap [(3, 10), (5, 100)]) 4 = none ∧
    resolve_index (buildSyncMap []) 150 = none := by
  refine ⟨?_, ?_, ?_⟩
  · exact (c6_resolve_most_recent [(0, 0), (5, 100), (10, 300)] 150
      (by simp [List.chain'_cons])).2.2 [(0, 0)] (5, 100) [(10, 300)] rfl
      (by decide) (by decide)
  · exact (c6_resolve_most_recent [(3, 10), (5, 100)] 4
      (by simp [List.chain'_cons])).2.1 (3, 10) [(5, 100)] rfl (by decide)
  · exact (c6_resolve_most_recent [] 150 List.chain'_nil).1 rfl

/-- Rounding of a rational as Rust f32 round: half away from zero. -/
def rustRoundQ (q : ℚ) : ℚ :=
  if 0 ≤ q then (⌊q + 1 / 2⌋ : ℚ) else (-⌊-q + 1 / 2⌋ : ℚ)

/-- The Rust saturating float-to-u32 cast: NaN and negative values cast to
0, values past the top saturate, finite in-range values truncate. -/
def rustCastU32 (x : F32) : Nat :=
  match x with
  | .nan => 0
  | .pinf => 2 ^ 32 - 1
  | .ninf => 0
  | .fin q => if q < 0 then 0 else min (⌊q⌋.toNat) (2 ^ 32 - 1)

/-- Constants of app.rs lines 51-53. -/
def DEFAULT_TTS_RATE : ℚ := 1

def TTS_MIN_RATE : ℚ := 1 / 2

def TTS_MAX_RATE : ℚ := 5 / 2

/-- rate_to_atomic (app.rs lines 1151-1156): clamp the rate into the rate
interval, scale by 1000, round, clamp into the scaled interval, cast. -/
def rate_to_atomic (rate : F32) : Nat :=
  let scaled := rustRound (rustMulPos (rustClamp rate TTS_MIN_RATE TTS_MAX_RATE) 1000)
  let min_scaled := rustRoundQ (TTS_MIN_RATE * 1000)
  let max_scaled := rustRoundQ (TTS_MAX_RATE * 1000)
  rustCastU32 (rustClamp scaled min_scaled max_scaled)

/-- atomic_to_rate (app.rs lines 1159-1161). -/
def atomic_to_rate (value : Nat) : ℚ :=
  (value : ℚ) / 1000

/-- The store performed by set_tts_rate (app.rs lines 603-622): the
requested rate is clamped and its atomic encoding written to the shared
rate handle. -/
def set_tts_rate_stored (rate : F32) : Nat :=
  rate_to_atomic (rustClamp rate TTS_MIN_RATE TTS_MAX_RATE)

/-- The rate used by run_tts_loop for the next synthesized sentence
(app.rs lines 983-991): the stored atomic value, with 0 replaced by the
encoding of the default rate, decoded back to a rate. -/
def loop_sentence_rate (stored : Nat) : ℚ :=
  atomic_to_rate (if stored = 0 then rate_to_atomic (.fin DEFAULT_TTS_RATE) else stored)

/-- The rate the loop uses for the next sentence after a caller requested
the given rate through set_tts_rate. -/
def loop_rate_after_set (requested : F32) : ℚ :=
  loop_sentence_rate (set_tts_rate_stored requested)

/-- C7 counterexample: a requested rate of exactly zero is clamped to the
minimum rate 1/2, not replaced by the default rate 1, so the rate used by
the loop for the next sentence differs from the default.  Only a NaN
request reaches the stored-zero fallback that yields the default rate. -/
theorem c7_zero_rate_counterexample :
    loop_rate_after_set (F32.fin 0) = 1 / 2 ∧ DEFAULT_TTS_RATE = 1 ∧
      ((1 : ℚ) / 2) ≠ 1 := by
  norm_num [loop_rate_after_set, set_tts_rate_stored, rate_to_atomic,
    rustClamp, rustMulPos, rustRound, rustRoundQ, rustCastU32,
    loop_sentence_rate, atomic_to_rate, TTS_MIN_RATE, TTS_MAX_RATE,
    DEFAULT_TTS_RATE, Int.toNat]

theorem c7_rate_sanitized (requested : F32) :
    (TTS_MIN_RATE ≤ loop_rate_after_set requested ∧
      loop_rate_after_set requested ≤ TTS_MAX_RATE) ∧
    loop_rate_after_set F32.nan = DEFAULT_TTS_RATE ∧
    loop_rate_after_set (F32.fin 0) = TTS_MIN_RATE ∧
    loop_rate_after_set F32.pinf = TTS_MAX_RATE ∧
    loop_rate_after_set F32.ninf = TTS_MIN_RATE := by
  have hnan : loop_rate_after_set F32.nan = DEFAULT_TTS_RATE := by
    norm_num [loop_rate_after_set, set_tts_rate_stored, rate_to_atomic,
      rustClamp, rustMulPos, rustRound, rustRoundQ, rustCastU32,
      loop_sentence_rate, atomic_to_rate, TTS_MIN_RATE, TTS_MAX_RATE,
      DEFAULT_TTS_RATE, Int.toNat]
  have hzero : loop_rate_after_set (F32.fin 0) = TTS_MIN_RATE := by
    norm_num [loop_rate_after_set, set_tts_rate_stored, rate_to_atomic,
      rustClamp, rustMulPos, rustRound, rustRoundQ, rustCastU32,
      loop_sentence_rate, atomic_to_rate, TTS_MIN_RATE, TTS_MAX_RATE,
      DEFAULT_TTS_RATE, Int.toNat]
  have hpinf : loop_rate_after_set F32.pinf = TTS_MAX_RATE := by
    norm_num [loop_rate_after_set, set_tts_rate_stored, rate_to_atomic,
      rustClamp, rustMulPos, rustRound, rustRoundQ, rustCastU32,
      loop_sentence_rate, atomic_to_rate, TTS_MIN_RATE, TTS_MAX_RATE,
      DEFAULT_TTS_RATE, Int.toNat]
  have hninf : loop_rate_after_set F32.ninf = TTS_MIN_RATE := by
    norm_num [loop_rate_after_set, set_tts_rate_stored, rate_to_atomic,
      rustClamp, rustMulPos, rustRound, rustRoundQ, rustCastU32,
      loop_sentence_rate, atomic_to_rate, TTS_MIN_RATE, TTS_MAX_RATE,
      DEFAULT_TTS_RATE, Int.toNat]
  refine ⟨?_, hnan, hzero, hpinf, hninf⟩
  cases requested with
  | nan => rw [hnan]; norm_num [DEFAULT_TTS_RATE, TTS_MIN_RATE, TTS_MAX_RATE]
  | pinf => rw [hpinf]; norm_num [TTS_MIN_RATE, TTS_MAX_RATE]
  | ninf => rw [hninf]; norm_num [TTS_MIN_RATE, TTS_MAX_RATE]
  | fin q =>
    by_cases hlo : q < TTS_MIN_RATE
    · have hv : loop_rate_after_set (F32.fin q) = TTS_MIN_RATE := by
        rw [loop_rate_after_set, set_tts_rate_stored]
        rw [show rustClamp (F32.fin q) TTS_MIN_RATE TTS_MAX_RATE
            = F32.fin TTS_MIN_RATE from by simp only [rustClamp, if_pos hlo]]
        norm_num [rate_to_atomic, rustClamp, rustMulPos, rustRound,
          rustRoundQ, rustCastU32, loop_sentence_rate, atomic_to_rate,
          TTS_MIN_RATE, TTS_MAX_RATE, Int.toNat]
      rw [hv]
      norm_num [TTS_MIN_RATE, TTS_MAX_RATE]
    · by_cases hhi : TTS_MAX_RATE < q
      · have hv : loop_rate_after_set (F32.fin q) = TTS_MAX_RATE := by
          rw [loop_rate_after_set, set_tts_rate_stored]
          rw [show rustClamp (F32.fin q) TTS_MIN_RATE TTS_MAX_RATE
              = F32.fin TTS_MAX_RATE from by
            simp only [rustClamp, if_neg (not_lt.mpr (le_of_lt
              (lt_of_lt_of_le (by norm_num [TTS_MIN_RATE, TTS_MAX_RATE] :
                TTS_MIN_RATE < TTS_MAX_RATE) (le_of_lt hhi)))), if_pos hhi]]
          norm_num [rate_to_atomic, rustClamp, rustMulPos, rustRound,
            rustRoundQ, rustCastU32, loop_sentence_rate, atomic_to_rate,
            TTS_MIN_RATE, TTS_MAX_RATE, Int.toNat]
        rw [hv]
        norm_num [TTS_MIN_RATE, TTS_MAX_RATE]
      · push_neg at hlo hhi
        have hlo2 : (1 : ℚ) / 2 ≤ q := by rw [TTS_MIN_RATE] at hlo; exact hlo
        have hhi2 : q ≤ 5 / 2 := by rw [TTS_MAX_RATE] at hhi; exact hhi
        have hn1 : (500 : Int) ≤ ⌊q * 1000 + 1 / 2⌋ := by
          apply Int.le_floor.mpr
          push_cast
          linarith
        have hn2 : ⌊q * 1000 + 1 / 2⌋ ≤ 2500 := by
          have hlt : ⌊q * 1000 + 1 / 2⌋ < 2501 := by
            apply Int.floor_lt.mpr
            push_cast
            linarith
          omega
        have h1 : ¬(q < TTS_MIN_RATE) := not_lt.mpr hlo
        have h2 : ¬(TTS_MAX_RATE < q) := not_lt.mpr hhi
        have h3 : (0 : ℚ) ≤ q * 1000 := by linarith
        have h4 : ¬((⌊q * 1000 + 1 / 2⌋ : ℚ) < rustRoundQ (TTS_MIN_RATE * 1000)) := by
          rw [not_lt]
          have : rustRoundQ (TTS_MIN_RATE * 1000) = 500 := by
            norm_num [rustRoundQ, TTS_MIN_RATE]
          rw [this]
          exact_mod_cast hn1
        have h5 : ¬(rustRoundQ (TTS_MAX_RATE * 1000) < (⌊q * 1000 + 1 / 2⌋ : ℚ)) := by
          rw [not_lt]
          have : rustRoundQ (TTS_MAX_RATE * 1000) = 2500 := by
            norm_num [rustRoundQ, TTS_MAX_RATE]
          rw [this]
          exact_mod_cast hn2
        have h6 : ¬((⌊q * 1000 + 1 / 2⌋ : ℚ) < 0) := by
          rw [not_lt]
          have : (0 : Int) ≤ ⌊q * 1000 + 1 / 2⌋ := by omega
          exact_mod_cast this
        have heval : loop_rate_after_set (F32.fin q)
            = ((⌊q * 1000 + 1 / 2⌋).toNat : ℚ) / 1000 := by
          rw [loop_rate_after_set, set_tts_rate_stored]
          rw [show rustClamp (F32.fin q) TTS_MIN_RATE TTS_MAX_RATE = F32.fin q
            from by simp only [rustClamp, if_neg h1, if_neg h2]]
          simp only [rate_to_atomic]
          rw [show rustClamp (F32.fin q) TTS_MIN_RATE TTS_MAX_RATE = F32.fin q
            from by simp only [rustClamp, if_neg h1, if_neg h2]]
          rw [show rustMulPos (F32.fin q) 1000 = F32.fin (q * 1000) from rfl]
          rw [show rustRound (F32.fin (q * 1000))
              = F32.fin ((⌊q * 1000 + 1 / 2⌋ : ℚ)) from by
            simp only [rustRound, if_pos h3]]
          rw [show rustClamp (F32.fin ((⌊q * 1000 + 1 / 2⌋ : ℚ)))
              (rustRoundQ (TTS_MIN_RATE * 1000)) (rustRoundQ (TTS_MAX_RATE * 1000))
              = F32.fin ((⌊q * 1000 + 1 / 2⌋ : ℚ)) from by
            simp only [rustClamp, if_neg h4, if_neg h5]]
          rw [show rustCastU32 (F32.fin ((⌊q * 1000 + 1 / 2⌋ : ℚ)))
              = (⌊q * 1000 + 1 / 2⌋).toNat from by
            simp only [rustCastU32, if_neg h6, Int.floor_intCast]
            exact min_eq_left (by omega)]
          rw [loop_sentence_rate, if_neg (by omega)]
          rfl
        have hcast : (((⌊q * 1000 + 1 / 2⌋).toNat : Nat) : ℚ)
            = ((⌊q * 1000 + 1 / 2⌋ : Int) : ℚ) := by
          exact_mod_cast congrArg (fun z : Int => (z : ℚ))
            (Int.toNat_of_nonneg (by omega))
        have hb1 : ((500 : Int) : ℚ) ≤ ((⌊q * 1000 + 1 / 2⌋ : Int) : ℚ) := by
          exact_mod_cast hn1
        have hb2 : ((⌊q * 1000 + 1 / 2⌋ : Int) : ℚ) ≤ ((2500 : Int) : ℚ) := by
          exact_mod_cast hn2
        rw [heval, hcast]
        push_cast at hb1 hb2
        constructor
        · rw [TTS_MIN_RATE]
          linarith
        · rw [TTS_MAX_RATE]
          linarith

/-- One sentence of reader text (app.rs SentenceData): its text and its
word list. -/
structure SentenceData where
  text : String
  words : List String
deriving DecidableEq, Repr

/-- The per-session TTS playback record (app.rs TtsPlayback): the values
of the shared cancellation and completion flags. -/
structure TtsPlayback where
  cancel : Bool
  finished : Bool
deriving DecidableEq, Repr

/-- The reader-session fields that start_tts reads or writes (app.rs
ReaderSession). -/
structure ReaderSession where
  sentences : List SentenceData
  current_sentence : Nat
  current_word : Nat
  tts_rate_atomic : Nat
  tts : Option TtsPlayback
  tts_engine : Option String
  tts_voice : Option String
deriving DecidableEq, Repr

/-- The error cases of start_tts (app.rs lines 836-900), in source order. -/
inductive StartTtsError where
  | noText
  | alreadyRunning
  | noEngine
deriving DecidableEq, Repr

/-- The arguments handed to the spawned TTS thread on success (app.rs
lines 885-897). -/
structure SpawnArgs where
  sentences : List SentenceData
  start_sentence : Nat
  start_word : Nat
  engine : String
  voice : Option String
  cancel_init : Bool
  finished_init : Bool
deriving DecidableEq, Repr

/-- start_tts (app.rs lines 836-900) on a present session: validate in
source order (empty text, an already-running session, missing engine),
each early return leaving the session exactly as found and spawning
nothing; on success record fresh false flags in the session and spawn the
worker thread with the collected arguments.  Result: the Result value, the
session afterwards, and whether a thread was spawned. -/
def start_tts (s : ReaderSession) :
    Except StartTtsError SpawnArgs × ReaderSession × Bool :=
  if s.sentences = [] then
    (.error .noText, s, false)
  else
    match s.tts with
    | some _ => (.error .alreadyRunning, s, false)
    | none =>
      match s.tts_engine with
      | none => (.error .noEngine, s, false)
      | some engine =>
        let s2 := { s with tts := some { cancel := false, finished := false } }
        (.ok { sentences := s.sentences, start_sentence := s.current_sentence,
               start_word := s.current_word, engine := engine,
               voice := s.tts_voice, cancel_init := false,
               finished_init := false }, s2, true)

/-- C8: starting read-aloud on a session that already has an active
playback is rejected with the already-running conflict, the session is
returned unchanged (no fields written, no flags created) and no thread is
spawned.  The non-empty-sentences hypothesis holds for every session with
an active playback, since starting one requires non-empty sentences. -/
theorem c8_already_running_rejected (s : ReaderSession) (p : TtsPlayback)
    (hrun : s.tts = some p) (htext : s.sentences ≠ []) :
    start_tts s = (.error .alreadyRunning, s, false) := by
  rw [start_tts, if_neg htext, hrun]

/-- Witness for C8 on a concrete running session. -/
theorem c8_witness :
    start_tts
      { sentences := [{ text := "hi", words := ["hi"] }],
        current_sentence := 0, current_word := 0, tts_rate_atomic := 1000,
        tts := some { cancel := false, finished := false },
        tts_engine := some ("piper"), tts_voice := none }
    = (.error .alreadyRunning,
       { sentences := [{ text := "hi", words := ["hi"] }],
         current_sentence := 0, current_word := 0, tts_rate_atomic := 1000,
         tts := some { cancel := false, finished := false },
         tts_engine := some ("piper"), tts_voice := none }, false) :=
  c8_already_running_rejected _ { cancel := false, finished := false } rfl
    (by decide)

/-- The configuration of the model-file-backed engine (rust_core api.rs
PiperBackendConfig): model path, optional config path, optional speaker. -/
structure PiperBackendConfig where
  model_path : String
  config_path : Option String
  speaker : Option String
deriving DecidableEq, Repr

/-- The cache fingerprint of a load configuration (engine/mod.rs lines
77-85): model path, config path defaulting to the model path, and speaker
defaulting to the word default, joined by double colons. -/
def piperFingerprint (config : PiperBackendConfig) : String :=
  config.model_path ++ "::" ++ config.config_path.getD config.model_path
    ++ "::" ++ config.speaker.getD ("default")

/-- The single-slot heavyweight engine cache (engine/mod.rs
CachedPiperEngine).  An engine instance is identified by the allocation
number its constructor produced. -/
structure CachedPiperEngine where
  fingerprint : String
  engine : Nat
deriving DecidableEq, Repr

/-- The registry state load_piper touches (engine/mod.rs
EngineRegistryHandle): the cached engine, the active model label, and,
as instrumentation for the caching claim, the number of constructor runs
so far (which also serves as the identity of the next instance). -/
structure RegistryState where
  piper_engine : Option CachedPiperEngine
  active_model : Option String
  ctor_runs : Nat
deriving DecidableEq, Repr

/-- EngineRegistryHandle::load_piper (engine/mod.rs lines 70-102),
parameterized by which configurations the PiperEngine constructor accepts:
on a cached fingerprint match return the cached instance and refresh the
active model; otherwise run the constructor and, on success, replace the
cache slot.  Returns the Result and the new state; a constructor run
increments ctor_runs and yields the instance numbered by the old count. -/
def load_piper (ctor_ok : PiperBackendConfig → Bool)
    (config : PiperBackendConfig) (st : RegistryState) :
    Except String Nat × RegistryState :=
  let fp := piperFingerprint config
  let hit : Option Nat :=
    match st.piper_engine with
    | some cache => if cache.fingerprint = fp then some cache.engine else none
    | none => none
  match hit with
  | some engine =>
    (.ok engine, { st with active_model := some config.model_path })
  | none =>
    if ctor_ok config then
      (.ok st.ctor_runs,
       { piper_engine := some { fingerprint := fp, engine := st.ctor_runs },
         active_model := some config.model_path,
         ctor_runs := st.ctor_runs + 1 })
    else
      (.error ("model load failed"), st)

/-- C9: two load requests whose configurations agree on model path, config
path and speaker resolve to the same engine instance: whenever the first
resolves successfully to an instance, the second resolution returns that
very instance and runs the constructor zero times (the constructor-run
counter is unchanged). -/
theorem c9_cached_engine_reused (ctor_ok : PiperBackendConfig → Bool)
    (c1 c2 : PiperBackendConfig) (st0 : RegistryState)
    (hm : c1.model_path = c2.model_path)
    (hc : c1.config_path = c2.config_path)
    (hs : c1.speaker = c2.speaker) (e : Nat)
    (h1 : (load_piper ctor_ok c1 st0).1 = .ok e) :
    (load_piper ctor_ok c2 (load_piper ctor_ok c1 st0).2).1 = .ok e ∧
    (load_piper ctor_ok c2 (load_piper ctor_ok c1 st0).2).2.ctor_runs
      = (load_piper ctor_ok c1 st0).2.ctor_runs := by
  have hfp : piperFingerprint c2 = piperFingerprint c1 := by
    rw [piperFingerprint, piperFingerprint, hm, hc, hs]
  have hkey : (load_piper ctor_ok c1 st0).2.piper_engine
      = some { fingerprint := piperFingerprint c1, engine := e } := by
    rcases hcache : st0.piper_engine with _ | cache
    · rcases hok : ctor_ok c1 with _ | _
      · exfalso
        rw [load_piper] at h1
        simp [hcache, hok] at h1
      · rw [load_piper] at h1 ⊢
        simp [hcache, hok] at h1 ⊢
        exact h1
    · by_cases hfpc : cache.fingerprint = piperFingerprint c1
      · rw [load_piper] at h1 ⊢
        simp [hcache, hfpc] at h1 ⊢
        cases cache
        simp_all
      · rcases hok : ctor_ok c1 with _ | _
        · exfalso
          rw [load_piper] at h1
          simp [hcache, hfpc, hok] at h1
        · rw [load_piper] at h1 ⊢
          simp [hcache, hfpc, hok] at h1 ⊢
          exact h1
  constructor
  · rw [load_piper]
    simp [hkey, hfp]
  · rw [load_piper]
    simp [hkey, hfp]

/-- A concrete load configuration for the C9 witness. -/
def c9Config : PiperBackendConfig :=
  { model_path := "m.onnx", config_path := none, speaker := none }

/-- The empty registry state for the C9 witness. -/
def c9State0 : RegistryState :=
  { piper_engine := none, active_model := none, ctor_runs := 0 }

/-- The registry state after the first load of the C9 witness. -/
def c9State1 : RegistryState :=
  (load_piper (fun _ => true) c9Config c9State0).2

/-- Witness for C9: from an empty registry, loading the same configuration
twice returns instance 0 both times, with no second constructor run. -/
theorem c9_witness :
    (load_piper (fun _ => true) c9Config c9State1).1 = .ok 0 ∧
    (load_piper (fun _ => true) c9Config c9State1).2.ctor_runs
      = c9State1.ctor_runs :=
  c9_cached_engine_reused (fun _ => true) c9Config c9Config c9State0
    rfl rfl rfl 0 rfl
